import Mathlib

/-!
Verification of the Monte Carlo lineup simulation engine
(`ml_service/simulation_engine.py`).

The Python data model is embedded shallowly:

* `PlayerProjection`, `Scenario`, `SimulationResult`, `FitResult` are records
  mirroring the dataclasses / dicts of the source.
* Python objects are mutable and aliased.  A lineup is therefore modelled as a
  *store* (`List PlayerProjection`, the caller-owned heap of projection
  objects) together with a list of indices into that store; `list.copy()`
  copies the index list but shares the store entries, exactly as in CPython.
* `numpy` / `scipy` calls are embedded as explicit Lean functions when their
  semantics matter (mean, variance, percentile with linear interpolation,
  Pearson correlation, eigenvalue repair) and as oracle parameters when only
  their success/failure or their value as a black box matters (random draws,
  scipy distribution fitting, `np.linalg.cholesky`).
* Machine floats are modelled by `ℚ` (exact data flow) and `ℝ` (square roots,
  eigenvalues); fallible code returns `Except`/`Option`.
-/

/-! ## Data model -/

inductive SimulationType where
  | MONTE_CARLO
  | SCENARIO
  | BOOTSTRAP
deriving DecidableEq, Repr

/-- `@dataclass PlayerProjection` (simulation_engine.py lines 39-48).
`correlation_factors : Dict[str, float]` becomes an association list. -/
structure PlayerProjection where
  player_id : ℤ
  name : String
  position : String
  salary : ℚ
  mean_projection : ℚ
  std_projection : ℚ
  distribution_type : String
  correlation_factors : List (String × ℚ)
deriving DecidableEq, Repr

/-- A scenario dict as consumed by `_apply_scenario_to_lineup`.  The fields
record the result of the `scenario.get(key, default)` lookups of the source:
optional keys are `Option`s, `impact_factor` and `variance_adjustment` hold
the looked-up value with default `1.0`, `player_ids` defaults to `[]`. -/
structure Scenario where
  stype : String
  injured_player_id : Option ℤ
  replacement_player_id : Option ℤ
  player_ids : List ℤ
  player_id : Option ℤ
  impact_factor : ℚ
  variance_adjustment : ℚ
deriving DecidableEq, Repr

/-- `@dataclass SimulationResult` (lines 25-37). -/
structure SimulationResult where
  mean_score : ℝ
  std_score : ℝ
  percentile_10 : ℝ
  percentile_25 : ℝ
  percentile_50 : ℝ
  percentile_75 : ℝ
  percentile_90 : ℝ
  confidence_interval_95 : ℝ × ℝ
  probability_above_threshold : ℝ
  iterations : ℤ
  simulation_type : SimulationType

/-! ## Scenario adjustment (`_apply_scenario_to_lineup`, lines 484-529)

The Python loop bodies `player.mean_projection *= impact_factor;
player.std_projection *= variance_adjustment` update the shared store entry
in place.  `adjustMatching` is the common shape of the four loops: walk the
positions of the (copied) lineup list and update the store entry referenced
from each position whose player satisfies the branch's guard. -/

/-- The in-place `*=` update performed on one `PlayerProjection` object. -/
def scenarioAdjust (impact varAdj : ℚ) (p : PlayerProjection) : PlayerProjection :=
  { p with
    mean_projection := p.mean_projection * impact
    std_projection := p.std_projection * varAdj }

/-- One of the `for player in adjusted_lineup` loops of
`_apply_scenario_to_lineup`: walk the lineup positions in order and, whenever
the referenced player satisfies `cond`, mutate that store entry in place. -/
def adjustMatching (impact varAdj : ℚ) (cond : PlayerProjection → Bool) :
    List PlayerProjection → List ℕ → List PlayerProjection
  | store, [] => store
  | store, idx :: rest =>
    adjustMatching impact varAdj cond
      (match store[idx]? with
       | some p => if cond p then store.set idx (scenarioAdjust impact varAdj p) else store
       | none => store) rest

/-- `SimulationEngine._apply_scenario_to_lineup`.  `adjusted_lineup =
lineup.copy()` copies the index list only; the four `elif` branches differ
only in their membership guard.  Returns the store after the call together
with the returned (copied) lineup list. -/
def applyScenarioToLineup (store : List PlayerProjection) (lineup : List ℕ)
    (sc : Scenario) : List PlayerProjection × List ℕ :=
  let adjusted := lineup
  let impact := sc.impact_factor
  let varAdj := sc.variance_adjustment
  if sc.stype = "injury" then
    (adjustMatching impact varAdj (fun p => some p.player_id == sc.injured_player_id)
      store adjusted, adjusted)
  else if sc.stype = "weather" then
    (adjustMatching impact varAdj (fun _ => true) store adjusted, adjusted)
  else if sc.stype = "rest" then
    (adjustMatching impact varAdj (fun p => sc.player_ids.contains p.player_id)
      store adjusted, adjusted)
  else if sc.stype = "matchup" then
    (adjustMatching impact varAdj (fun p => some p.player_id == sc.player_id)
      store adjusted, adjusted)
  else (store, adjusted)

/-- Which players a scenario applies to; mirrors the four guards of
`_apply_scenario_to_lineup` (unknown scenario types touch nobody). -/
def inScope (sc : Scenario) (p : PlayerProjection) : Bool :=
  if sc.stype = "injury" then some p.player_id == sc.injured_player_id
  else if sc.stype = "weather" then true
  else if sc.stype = "rest" then sc.player_ids.contains p.player_id
  else if sc.stype = "matchup" then some p.player_id == sc.player_id
  else false

/-- `SimulationEngine.scenario_analysis` (lines 356-392), projected to the
observable that matters for scenario independence: the sequence of adjusted
projection values handed to `monte_carlo_simulation` for each scenario.
Each round calls `_apply_scenario_to_lineup(base_lineup, scenario)` with the
store as left by the previous round. -/
def scenarioAnalysisLineups (store : List PlayerProjection) (base : List ℕ) :
    List Scenario → List (List (Option PlayerProjection))
  | [] => []
  | sc :: rest =>
    let res := applyScenarioToLineup store base sc
    (res.2.map fun idx => res.1[idx]?) :: scenarioAnalysisLineups res.1 base rest

/-! Helper lemmas about `adjustMatching`. -/

lemma adjustMatching_getElem_of_not_mem (impact varAdj : ℚ)
    (cond : PlayerProjection → Bool) :
    ∀ (lineup : List ℕ) (store : List PlayerProjection) (idx : ℕ), idx ∉ lineup →
      (adjustMatching impact varAdj cond store lineup)[idx]? = store[idx]? := by
  intro lineup
  induction lineup with
  | nil => intro store idx _; rfl
  | cons i tl ih =>
    intro store idx hidx
    have hne : idx ≠ i := fun h => hidx (h ▸ List.mem_cons_self i tl)
    have htl : idx ∉ tl := fun h => hidx (List.mem_cons_of_mem _ h)
    rw [adjustMatching]
    rcases h : store[i]? with _ | p
    · simp only [h]
      exact ih _ idx htl
    · simp only [h]
      by_cases hc : cond p
      · simp only [hc, if_pos]
        rw [ih _ idx htl]
        exact List.getElem?_set_ne (Ne.symm hne)
      · simp only [hc, Bool.false_eq_true, if_neg, not_false_iff]
        exact ih _ idx htl

lemma adjustMatching_getElem_of_mem (impact varAdj : ℚ)
    (cond : PlayerProjection → Bool) :
    ∀ (lineup : List ℕ) (store : List PlayerProjection) (idx : ℕ), lineup.Nodup →
      idx ∈ lineup →
      (adjustMatching impact varAdj cond store lineup)[idx]? =
        store[idx]?.map
          (fun p => if cond p then scenarioAdjust impact varAdj p else p) := by
  intro lineup
  induction lineup with
  | nil => intro store idx _ h; cases h
  | cons i tl ih =>
    intro store idx hnd hidx
    have hnd' := List.nodup_cons.mp hnd
    rw [adjustMatching]
    rcases List.mem_cons.mp hidx with heq | hmem
    · subst heq
      have hnot : idx ∉ tl := hnd'.1
      rw [adjustMatching_getElem_of_not_mem impact varAdj cond tl _ idx hnot]
      rcases h : store[idx]? with _ | p
      · simp [h]
      · have hlt : idx < store.length := List.getElem?_eq_some.mp h |>.1
        simp only [h]
        by_cases hc : cond p
        · simp [hc, h, List.getElem?_set_eq_of_lt _ hlt]
        · simp [hc, h]
    · have hne : idx ≠ i := fun h => hnd'.1 (h ▸ hmem)
      have hstep : (match store[i]? with
         | some p => if cond p then store.set i (scenarioAdjust impact varAdj p) else store
         | none => store)[idx]? = store[idx]? := by
        rcases h : store[i]? with _ | p
        · rfl
        · by_cases hc : cond p
          · simp only [hc, if_pos]
            exact List.getElem?_set_ne (Ne.symm hne)
          · simp [hc]
      rw [ih _ idx hnd'.2 hmem, hstep]

/-- C4: for every lineup of distinct projection objects and every scenario,
the projections returned by `_apply_scenario_to_lineup` have, at every lineup
position, `mean_projection` multiplied by `impact_factor` and
`std_projection` multiplied by `variance_adjustment` when the player is in
the scenario's scope, and are unchanged otherwise; the returned index list is
the (copied) input lineup. -/
theorem applyScenario_adjusted_values (store : List PlayerProjection)
    (lineup : List ℕ) (sc : Scenario) (hnd : lineup.Nodup) :
    (applyScenarioToLineup store lineup sc).2 = lineup ∧
    (∀ idx ∈ lineup, ((applyScenarioToLineup store lineup sc).1)[idx]? =
      store[idx]?.map (fun p =>
        if inScope sc p then
          scenarioAdjust sc.impact_factor sc.variance_adjustment p
        else p)) ∧
    (∀ p : PlayerProjection,
      (scenarioAdjust sc.impact_factor sc.variance_adjustment p).mean_projection =
        p.mean_projection * sc.impact_factor ∧
      (scenarioAdjust sc.impact_factor sc.variance_adjustment p).std_projection =
        p.std_projection * sc.variance_adjustment) := by
  refine ⟨?_, ?_, fun p => ⟨rfl, rfl⟩⟩
  · unfold applyScenarioToLineup
    by_cases h1 : sc.stype = "injury" <;> by_cases h2 : sc.stype = "weather" <;>
      by_cases h3 : sc.stype = "rest" <;> by_cases h4 : sc.stype = "matchup" <;>
      simp [h1, h2, h3, h4]
  · intro idx hidx
    unfold applyScenarioToLineup inScope
    by_cases h1 : sc.stype = "injury"
    · simp only [h1, reduceIte]
      exact adjustMatching_getElem_of_mem _ _ _ lineup store idx hnd hidx
    · by_cases h2 : sc.stype = "weather"
      · simp only [h1, h2, reduceIte]
        exact adjustMatching_getElem_of_mem _ _ _ lineup store idx hnd hidx
      · by_cases h3 : sc.stype = "rest"
        · simp only [h1, h2, h3, reduceIte]
          exact adjustMatching_getElem_of_mem _ _ _ lineup store idx hnd hidx
        · by_cases h4 : sc.stype = "matchup"
          · simp only [h1, h2, h3, h4, reduceIte]
            exact adjustMatching_getElem_of_mem _ _ _ lineup store idx hnd hidx
          · simp only [h1, h2, h3, h4, reduceIte]
            rcases h : store[idx]? with _ | p <;> simp [h]

/-- Witness for C4: the spec's own example — an injury scenario with
`impact_factor = 0.8`, `variance_adjustment = 1.2` applied to a two-player
lineup whose player 1 has `mean_projection = 25`. -/
theorem applyScenario_adjusted_values_witness :
    ([0, 1] : List ℕ).Nodup ∧
    ((applyScenarioToLineup
        [⟨1, "Player 1", "PG", 8000, 25, 5, "normal", []⟩,
         ⟨2, "Player 2", "SG", 7500, 20, 4, "normal", []⟩] [0, 1]
        ⟨"injury", some 1, some 4, [], none, 4/5, 6/5⟩).2 = [0, 1] ∧
     (∀ idx ∈ ([0, 1] : List ℕ), (((applyScenarioToLineup
        [⟨1, "Player 1", "PG", 8000, 25, 5, "normal", []⟩,
         ⟨2, "Player 2", "SG", 7500, 20, 4, "normal", []⟩] [0, 1]
        ⟨"injury", some 1, some 4, [], none, 4/5, 6/5⟩).1)[idx]?) =
       (([⟨1, "Player 1", "PG", 8000, 25, 5, "normal", []⟩,
          ⟨2, "Player 2", "SG", 7500, 20, 4, "normal", []⟩] :
            List PlayerProjection)[idx]?).map (fun p =>
         if inScope ⟨"injury", some 1, some 4, [], none, 4/5, 6/5⟩ p then
           scenarioAdjust (4/5) (6/5) p
         else p)) ∧
     (∀ p : PlayerProjection,
       (scenarioAdjust (4/5) (6/5) p).mean_projection = p.mean_projection * (4/5) ∧
       (scenarioAdjust (4/5) (6/5) p).std_projection = p.std_projection * (6/5))) :=
  ⟨by decide,
   applyScenario_adjusted_values
     [⟨1, "Player 1", "PG", 8000, 25, 5, "normal", []⟩,
      ⟨2, "Player 2", "SG", 7500, 20, 4, "normal", []⟩] [0, 1]
     ⟨"injury", some 1, some 4, [], none, 4/5, 6/5⟩ (by decide)⟩

/-- C2: evaluating `_apply_scenario_to_lineup` at a concrete input shows the
caller's `PlayerProjection` object being updated in place.  `lineup.copy()`
is a shallow copy — the store entries are shared — and the loop bodies use
`*=` on those shared entries, so after the call the caller's object at store
index 0 has `mean_projection = 20`, no longer the original `25`. -/
theorem applyScenario_mutates_caller_object :
    (([⟨1, "Player 1", "PG", 8000, 25, 5, "normal", []⟩] :
        List PlayerProjection)[0]?).map (fun p => p.mean_projection) = some 25 ∧
    (((applyScenarioToLineup [⟨1, "Player 1", "PG", 8000, 25, 5, "normal", []⟩]
        [0] ⟨"weather", none, none, [], none, 4/5, 1⟩).1)[0]?).map
      (fun p => p.mean_projection) = some 20 ∧
    (20 : ℚ) ≠ 25 := by
  refine ⟨rfl, ?_, by norm_num⟩
  simp [applyScenarioToLineup, adjustMatching, scenarioAdjust]
  norm_num

/-- C3: scenarios compound instead of starting from the unmodified base
lineup.  Running `scenario_analysis` with two identical weather scenarios
(`impact_factor = 0.8`) on a one-player lineup with `mean_projection = 25`:
the second scenario simulates `mean_projection = 16` (= 25·0.8·0.8), whereas
applying that scenario alone to the base lineup gives `20`. -/
theorem scenarioAnalysis_compounds_adjustments :
    (scenarioAnalysisLineups [⟨1, "Player 1", "PG", 8000, 25, 5, "normal", []⟩] [0]
      [⟨"weather", none, none, [], none, 4/5, 1⟩,
       ⟨"weather", none, none, [], none, 4/5, 1⟩]).get? 1 =
      some [some ⟨1, "Player 1", "PG", 8000, 16, 5, "normal", []⟩] ∧
    ((applyScenarioToLineup [⟨1, "Player 1", "PG", 8000, 25, 5, "normal", []⟩] [0]
        ⟨"weather", none, none, [], none, 4/5, 1⟩).2.map
      (fun idx => (applyScenarioToLineup
        [⟨1, "Player 1", "PG", 8000, 25, 5, "normal", []⟩] [0]
        ⟨"weather", none, none, [], none, 4/5, 1⟩).1.get? idx)) =
      [some ⟨1, "Player 1", "PG", 8000, 20, 5, "normal", []⟩] ∧
    (16 : ℚ) ≠ 20 := by
  refine ⟨?_, ?_, by norm_num⟩ <;>
    · simp [scenarioAnalysisLineups, applyScenarioToLineup, adjustMatching,
        scenarioAdjust]
      norm_num

/-! ## Monte Carlo simulation (`monte_carlo_simulation`, lines 254-354)

Random draws (`np.random.normal`, `np.random.lognormal`, the independent and
correlated sample matrices) are oracle parameters: the control flow and the
aggregation are embedded exactly, the draws are opaque values.  The whole
Python body is wrapped in `try/except Exception`, which returns an all-zero
`SimulationResult`; this is modelled by `monteCarloBody` (the body, returning
`Except`) and `monteCarloSimulation` (the catch). -/

/-- `np.mean` (population mean).  On an empty list `np.mean` yields `nan`
with a warning rather than raising; the junk value `0/0 = 0` is never
observable because `np.percentile` raises first (see `monteCarloBody`). -/
def npMean (xs : List ℚ) : ℚ := xs.sum / xs.length

/-- The population variance `np.var`; `np.std` is its square root. -/
def npVar (xs : List ℚ) : ℚ :=
  ((xs.map (fun x => (x - npMean xs) ^ 2)).sum) / xs.length

/-- `np.percentile(xs, q)` with the default linear interpolation:
`h = (len-1)*q/100`, result `s[⌊h⌋] + (h-⌊h⌋)*(s[⌊h⌋+1] - s[⌊h⌋])` on the
sorted data (upper index clamped).  Raises on an empty array. -/
def npPercentile (xs : List ℚ) (q : ℚ) : Except String ℚ :=
  if xs.isEmpty then
    Except.error "zero-size array to reduction operation"
  else
    let s := List.insertionSort (fun a b => a ≤ b) xs
    let n := s.length
    let h : ℚ := q * ((n : ℚ) - 1) / 100
    let i : ℕ := (Int.floor h).toNat
    let lo := s.getD i 0
    let hi := s.getD (min (i + 1) (n - 1)) 0
    Except.ok (lo + (h - (i : ℚ)) * (hi - lo))

/-- The `SimulationResult` built by the `except` branch of
`monte_carlo_simulation` (lines 349-354): every score field zero, confidence
interval `(0, 0)`, `iterations = 0`. -/
def emptySimulationResult : SimulationResult :=
  { mean_score := 0, std_score := 0, percentile_10 := 0, percentile_25 := 0,
    percentile_50 := 0, percentile_75 := 0, percentile_90 := 0,
    confidence_interval_95 := (0, 0), probability_above_threshold := 0,
    iterations := 0, simulation_type := SimulationType.MONTE_CARLO }

/-- Line 309: `sample = sample * (1 + correlation_factor * 0.1)` — the
correlation signal is blended into the raw sample as a multiplicative nudge
with hard-coded factor `0.1`. -/
def blendCorrelation (sample c : ℚ) : ℚ := sample * (1 + c * (1 / 10))

/-- Lines 299-304: dispatch on `distribution_type`; unknown tags fall back to
the normal draw. -/
def playerSample (drawNormal drawLognormal : ℕ → ℕ → ℚ → ℚ → ℚ) (i j : ℕ)
    (p : PlayerProjection) : ℚ :=
  if p.distribution_type = "normal" then
    drawNormal i j p.mean_projection p.std_projection
  else if p.distribution_type = "lognormal" then
    drawLognormal i j p.mean_projection p.std_projection
  else drawNormal i j p.mean_projection p.std_projection

/-- One iteration of the inner loop (lines 294-313): per player draw a raw
sample, optionally blend the correlation factor, clamp at zero and sum. -/
def iterationScore (lineup : List PlayerProjection) (includeCorr : Bool)
    (drawNormal drawLognormal : ℕ → ℕ → ℚ → ℚ → ℚ) (corr : ℕ → ℕ → ℚ)
    (i : ℕ) : ℚ :=
  lineup.enum.foldl (fun acc x =>
    let sample := playerSample drawNormal drawLognormal i x.1 x.2
    let sample := if includeCorr then blendCorrelation sample (corr i x.1) else sample
    acc + max 0 sample) 0

/-- The per-iteration score list `lineup_scores` of lines 292-315. -/
def simScores (lineup : List PlayerProjection) (iterations : ℤ) (includeCorr : Bool)
    (drawNormal drawLognormal : ℕ → ℕ → ℚ → ℚ → ℚ) (corr : ℕ → ℕ → ℚ) : List ℚ :=
  (List.range iterations.toNat).map
    (iterationScore lineup includeCorr drawNormal drawLognormal corr)

/-- The `try` body of `monte_carlo_simulation`.  `indepSample` is the
standard-normal matrix of line 283, `corrSample` the correlated matrix of
line 287 (used when correlations are requested and a Cholesky factor is
available, line 286).  A negative iteration count makes `np.random.normal`
raise; an empty score list makes `np.percentile` raise. -/
noncomputable def monteCarloBody (lineup : List PlayerProjection) (iterations : ℤ)
    (includeCorr cholAvailable : Bool)
    (drawNormal drawLognormal : ℕ → ℕ → ℚ → ℚ → ℚ)
    (indepSample corrSample : ℕ → ℕ → ℚ) : Except String SimulationResult :=
  if iterations < 0 then Except.error "negative dimensions are not allowed"
  else
    let correlated : ℕ → ℕ → ℚ := fun i j =>
      if includeCorr && cholAvailable then corrSample i j else indepSample i j
    let scores := simScores lineup iterations includeCorr drawNormal drawLognormal
      correlated
    let meanScore := npMean scores
    let varScore := npVar scores
    do
      let p10 ← npPercentile scores 10
      let p25 ← npPercentile scores 25
      let p50 ← npPercentile scores 50
      let p75 ← npPercentile scores 75
      let p90 ← npPercentile scores 90
      let ciLo ← npPercentile scores (5 / 2)
      let ciHi ← npPercentile scores (195 / 2)
      let probAbove : ℚ :=
        ((scores.countP (fun s => decide ((300 : ℚ) < s)) : ℚ) / (scores.length : ℚ))
      Except.ok
        { mean_score := (meanScore : ℝ), std_score := Real.sqrt ((varScore : ℚ) : ℝ),
          percentile_10 := (p10 : ℝ), percentile_25 := (p25 : ℝ),
          percentile_50 := (p50 : ℝ), percentile_75 := (p75 : ℝ),
          percentile_90 := (p90 : ℝ),
          confidence_interval_95 := ((ciLo : ℝ), (ciHi : ℝ)),
          probability_above_threshold := (probAbove : ℝ),
          iterations := iterations,
          simulation_type := SimulationType.MONTE_CARLO }

/-- `SimulationEngine.monte_carlo_simulation`: the `try` body with the
all-catching `except Exception` returning the all-zero sentinel. -/
noncomputable def monteCarloSimulation (lineup : List PlayerProjection) (iterations : ℤ)
    (includeCorr cholAvailable : Bool)
    (drawNormal drawLognormal : ℕ → ℕ → ℚ → ℚ → ℚ)
    (indepSample corrSample : ℕ → ℕ → ℚ) : SimulationResult :=
  match monteCarloBody lineup iterations includeCorr cholAvailable
      drawNormal drawLognormal indepSample corrSample with
  | Except.ok r => r
  | Except.error _ => emptySimulationResult

/-- The result actually produced for an empty lineup and `its > 0`
iterations: every score is zero, but the call succeeds and reports the
requested iteration count. -/
def zeroScoreResult (its : ℤ) : SimulationResult :=
  { mean_score := 0, std_score := 0, percentile_10 := 0, percentile_25 := 0,
    percentile_50 := 0, percentile_75 := 0, percentile_90 := 0,
    confidence_interval_95 := (0, 0), probability_above_threshold := 0,
    iterations := its, simulation_type := SimulationType.MONTE_CARLO }

/-! Reduction helpers for `Except` and for all-zero score lists. -/

lemma except_error_bind {α β : Type} (e : String) (f : α → Except String β) :
    (Except.error e >>= f) = Except.error e := rfl

lemma except_ok_bind {α β : Type} (a : α) (f : α → Except String β) :
    (Except.ok a >>= f) = f a := rfl

lemma insertionSort_replicate (n : ℕ) (a : ℚ) :
    List.insertionSort (fun x y => x ≤ y) (List.replicate n a) = List.replicate n a := by
  have hp := List.perm_insertionSort (fun x y : ℚ => x ≤ y) (List.replicate n a)
  refine List.eq_replicate_iff.mpr ⟨?_, ?_⟩
  · rw [hp.length_eq, List.length_replicate]
  · intro b hb
    exact List.eq_of_mem_replicate (hp.subset hb)

lemma npPercentile_replicate_zero (n : ℕ) (hn : n ≠ 0) (q : ℚ) :
    npPercentile (List.replicate n 0) q = Except.ok 0 := by
  obtain ⟨m, rfl⟩ : ∃ m, n = m + 1 := ⟨n - 1, by omega⟩
  unfold npPercentile
  rw [if_neg (by simp [List.replicate_succ])]
  simp only [insertionSort_replicate]
  have hgetD : ∀ i : ℕ, (List.replicate (m + 1) (0 : ℚ)).getD i 0 = 0 := by
    intro i
    rcases lt_or_ge i (m + 1) with hi | hi
    · simp [List.getD_eq_getElem?_getD, List.getElem?_replicate, hi]
    · simp [List.getD_eq_getElem?_getD, List.getElem?_replicate, Nat.not_lt.mpr hi,
        (by omega : ¬ i < m + 1)]
  rw [hgetD, hgetD]
  norm_num

lemma npMean_replicate_zero (n : ℕ) : npMean (List.replicate n 0) = 0 := by
  unfold npMean
  simp

lemma npVar_replicate_zero (n : ℕ) : npVar (List.replicate n 0) = 0 := by
  unfold npVar
  simp [npMean_replicate_zero, List.map_replicate]

lemma countP_replicate_zero (n : ℕ) :
    (List.replicate n (0 : ℚ)).countP (fun s => decide ((300 : ℚ) < s)) = 0 := by
  induction n with
  | zero => rfl
  | succ m ih =>
    rw [List.replicate_succ, List.countP_cons]
    simp [ih]

/-- C9: the correlation blend is not bounded by ±10% of the raw sample: with
raw sample `10` and correlation factor `2` (standard-normal draws are
unbounded), the blended sample is `12`, a 20% change. -/
theorem blendCorrelation_not_bounded_by_ten_percent :
    blendCorrelation 10 2 = 12 ∧
    ¬ (|blendCorrelation 10 2 - 10| ≤ (1 / 10) * |(10 : ℚ)|) := by
  constructor
  · norm_num [blendCorrelation]
  · norm_num [blendCorrelation]

/-- C9 (amended): the blend is the multiplicative nudge
`raw * (1 + 0.1 * c)`, never a replacement of the raw sample; its deviation
from the raw sample is `0.1 * |c| * |raw|`, which is within ±10% of the raw
sample exactly when the correlation factor satisfies `|c| ≤ 1` (standard
normal draws exceed that, so the ±10% bound is not universal). -/
theorem blendCorrelation_bounded_for_unit_factor (s c : ℚ) (hc : |c| ≤ 1) :
    blendCorrelation s c - s = s * (c * (1 / 10)) ∧
    |blendCorrelation s c - s| = |s| * |c| * (1 / 10) ∧
    |blendCorrelation s c - s| ≤ (1 / 10) * |s| := by
  have h1 : blendCorrelation s c - s = s * (c * (1 / 10)) := by
    unfold blendCorrelation; ring
  refine ⟨h1, ?_, ?_⟩
  · rw [h1, abs_mul, abs_mul, abs_of_pos (by norm_num : (0 : ℚ) < 1 / 10)]
    ring
  · rw [h1, abs_mul, abs_mul, abs_of_pos (by norm_num : (0 : ℚ) < 1 / 10)]
    nlinarith [abs_nonneg s, abs_nonneg c]

/-- Witness for C9 (amended) at raw sample `10`, correlation factor `1/2`. -/
theorem blendCorrelation_bounded_for_unit_factor_witness :
    |(1 / 2 : ℚ)| ≤ 1 ∧
    (blendCorrelation 10 (1 / 2) - 10 = 10 * ((1 / 2) * (1 / 10)) ∧
     |blendCorrelation 10 (1 / 2) - 10| = |(10 : ℚ)| * |(1 / 2 : ℚ)| * (1 / 10) ∧
     |blendCorrelation 10 (1 / 2) - 10| ≤ (1 / 10) * |(10 : ℚ)|) :=
  ⟨abs_le.mpr (by norm_num),
   blendCorrelation_bounded_for_unit_factor 10 (1 / 2) (abs_le.mpr (by norm_num))⟩

/-- C10: `monte_carlo_simulation` never propagates an exception: the whole
body is wrapped in `try/except Exception`.  When the body fails the caller
receives the sentinel `SimulationResult` whose score fields are all zero,
whose confidence interval is `(0, 0)` and whose iteration count is `0`; when
the body succeeds its result is returned untouched. -/
theorem monteCarlo_catches_every_internal_error (lineup : List PlayerProjection)
    (its : ℤ) (ic ca : Bool) (dn dl : ℕ → ℕ → ℚ → ℚ → ℚ) (ism csm : ℕ → ℕ → ℚ) :
    (∀ e, monteCarloBody lineup its ic ca dn dl ism csm = Except.error e →
      monteCarloSimulation lineup its ic ca dn dl ism csm = emptySimulationResult) ∧
    (∀ r, monteCarloBody lineup its ic ca dn dl ism csm = Except.ok r →
      monteCarloSimulation lineup its ic ca dn dl ism csm = r) ∧
    emptySimulationResult.mean_score = 0 ∧
    emptySimulationResult.std_score = 0 ∧
    emptySimulationResult.percentile_10 = 0 ∧
    emptySimulationResult.percentile_25 = 0 ∧
    emptySimulationResult.percentile_50 = 0 ∧
    emptySimulationResult.percentile_75 = 0 ∧
    emptySimulationResult.percentile_90 = 0 ∧
    emptySimulationResult.confidence_interval_95 = (0, 0) ∧
    emptySimulationResult.probability_above_threshold = 0 ∧
    emptySimulationResult.iterations = 0 := by
  refine ⟨?_, ?_, rfl, rfl, rfl, rfl, rfl, rfl, rfl, rfl, rfl, rfl⟩
  · intro e h
    unfold monteCarloSimulation
    rw [h]
  · intro r h
    unfold monteCarloSimulation
    rw [h]

/-- Witness for C10: with `iterations = 0` the statistics step
(`np.percentile` of an empty score list) fails inside the body and the
sentinel result is returned. -/
theorem monteCarlo_catches_every_internal_error_witness :
    monteCarloBody [⟨1, "Player 1", "PG", 8000, 25, 5, "normal", []⟩] 0 true true
      (fun _ _ m _ => m) (fun _ _ m _ => m) (fun _ _ => 0) (fun _ _ => 0) =
      Except.error "zero-size array to reduction operation" ∧
    monteCarloSimulation [⟨1, "Player 1", "PG", 8000, 25, 5, "normal", []⟩] 0 true true
      (fun _ _ m _ => m) (fun _ _ m _ => m) (fun _ _ => 0) (fun _ _ => 0) =
      emptySimulationResult :=
  ⟨rfl,
   (monteCarlo_catches_every_internal_error
      [⟨1, "Player 1", "PG", 8000, 25, 5, "normal", []⟩] 0 true true
      (fun _ _ m _ => m) (fun _ _ m _ => m) (fun _ _ => 0) (fun _ _ => 0)).1 _ rfl⟩

/-- C1: there is no `InvalidSimulationRequestError` anywhere in the engine;
calling `monte_carlo_simulation` with `iterations = 0` on a non-empty lineup
raises nothing and returns the all-zero sentinel result normally. -/
theorem monteCarlo_zero_iterations_returns_normally :
    monteCarloSimulation [⟨1, "Player 1", "PG", 8000, 25, 5, "normal", []⟩] 0
      true true (fun _ _ m _ => m) (fun _ _ m _ => m) (fun _ _ => 0) (fun _ _ => 0) =
      emptySimulationResult := rfl

lemma simScores_nil (its : ℤ) (ic : Bool) (dn dl : ℕ → ℕ → ℚ → ℚ → ℚ)
    (corr : ℕ → ℕ → ℚ) :
    simScores [] its ic dn dl corr = List.replicate its.toNat 0 := by
  unfold simScores
  refine List.eq_replicate_iff.mpr ⟨by simp, ?_⟩
  intro b hb
  obtain ⟨a, _, rfl⟩ := List.mem_map.mp hb
  rfl

/-- C1 (amended): the engine performs no input validation and raises no
`InvalidSimulationRequestError` (no such class exists in the code).  With
`iterations ≤ 0` the internal computation fails (negative sizes make
`np.random.normal` raise; `iterations = 0` makes `np.percentile` of the
empty score list raise) and the all-catching `except` returns the all-zero
sentinel result; with an empty lineup and positive iterations the call
completes normally and returns a result whose score statistics are all zero
and whose `iterations` field is the requested count. -/
theorem monteCarlo_no_invalid_request_error :
    (∀ (lineup : List PlayerProjection) (its : ℤ) (ic ca : Bool)
       (dn dl : ℕ → ℕ → ℚ → ℚ → ℚ) (ism csm : ℕ → ℕ → ℚ), its ≤ 0 →
       monteCarloSimulation lineup its ic ca dn dl ism csm = emptySimulationResult) ∧
    (∀ (its : ℤ) (ic ca : Bool) (dn dl : ℕ → ℕ → ℚ → ℚ → ℚ)
       (ism csm : ℕ → ℕ → ℚ), 0 < its →
       monteCarloSimulation [] its ic ca dn dl ism csm = zeroScoreResult its) := by
  constructor
  · intro lineup its ic ca dn dl ism csm hle
    unfold monteCarloSimulation monteCarloBody
    rcases lt_or_eq_of_le hle with hlt | heq
    · simp [hlt]
    · subst heq
      simp [simScores, npPercentile, except_error_bind]
  · intro its ic ca dn dl ism csm hpos
    have hn0 : its.toNat ≠ 0 := by omega
    unfold monteCarloSimulation monteCarloBody
    rw [if_neg (by omega)]
    simp only [simScores_nil, npPercentile_replicate_zero _ hn0, except_ok_bind,
      npMean_replicate_zero, npVar_replicate_zero, countP_replicate_zero,
      List.length_replicate]
    simp [zeroScoreResult, Real.sqrt_zero]

/-- Witness for C1 (amended): `iterations = 0` on a one-player lineup gives
the sentinel; `iterations = 2` on an empty lineup gives the all-zero result
with `iterations = 2`. -/
theorem monteCarlo_no_invalid_request_error_witness :
    ((0 : ℤ) ≤ 0 ∧
     monteCarloSimulation [⟨1, "Player 1", "PG", 8000, 25, 5, "normal", []⟩] 0
       true true (fun _ _ m _ => m) (fun _ _ m _ => m) (fun _ _ => 0) (fun _ _ => 0) =
       emptySimulationResult) ∧
    ((0 : ℤ) < 2 ∧
     monteCarloSimulation [] 2 true true (fun _ _ m _ => m) (fun _ _ m _ => m)
       (fun _ _ => 0) (fun _ _ => 0) = zeroScoreResult 2) :=
  ⟨⟨le_refl 0,
    monteCarlo_no_invalid_request_error.1
      [⟨1, "Player 1", "PG", 8000, 25, 5, "normal", []⟩] 0 true true
      (fun _ _ m _ => m) (fun _ _ m _ => m) (fun _ _ => 0) (fun _ _ => 0) (le_refl 0)⟩,
   ⟨by norm_num,
    monteCarlo_no_invalid_request_error.2 2 true true
      (fun _ _ m _ => m) (fun _ _ m _ => m) (fun _ _ => 0) (fun _ _ => 0) (by norm_num)⟩⟩

/-! ## Distribution fitting (`PerformanceDistribution.fit_distribution`,
lines 57-119)

`scipy.stats.<family>.fit` and `scipy.stats.kstest` are oracles `fitO` /
`ksO`: for a family name and a series they either produce fitted parameters
(a float tuple, modelled as `List ℝ`) respectively a KS statistic, or fail
(`none`, an exception inside the `try` of the candidate loop).  Everything
else — the candidate order, the rescaling for beta, the strict-minimum
selection with first-wins tie-breaking, the fallbacks — is embedded
exactly. -/

/-- `pandas` series minimum (`data.min()`); junk `0` on an empty series. -/
def listMinQ (xs : List ℚ) : ℚ := xs.foldl min (xs.headD 0)

/-- `pandas` series maximum (`data.max()`); junk `0` on an empty series. -/
def listMaxQ (xs : List ℚ) : ℚ := xs.foldl max (xs.headD 0)

/-- Line 79: `scaled_data = (data - data.min()) / (data.max() - data.min())`,
the rescale of the series into `[0, 1]` applied before fitting beta. -/
def rescale01 (data : List ℚ) : List ℚ :=
  data.map (fun x => (x - listMinQ data) / (listMaxQ data - listMinQ data))

/-- The dict returned by `fit_distribution`. -/
structure FitResult where
  distribution_type : String
  parameters : List ℝ
  mean : ℚ
  std : ℝ
  ks_statistic : Option ℚ

/-- `(np.mean(data), np.std(data))`, the parameter pair of the exception
fallback — which coincides with the MLE computed by `stats.norm.fit`. -/
noncomputable def empiricalNormalParams (data : List ℚ) : List ℝ :=
  [((npMean data : ℚ) : ℝ), Real.sqrt ((npVar data : ℚ) : ℝ)]

/-- The result dict of lines 103-109 (`mean`/`std` are recomputed from the
data regardless of the fitted family). -/
noncomputable def mkFitResult (data : List ℚ) (nm : String) (p : List ℝ)
    (ks : Option ℚ) : FitResult :=
  { distribution_type := nm, parameters := p, mean := npMean data,
    std := Real.sqrt ((npVar data : ℚ) : ℝ), ks_statistic := ks }

/-- One candidate of the `for dist_name in distributions` loop, lines 66-87:
rescale for beta, fit, compute the KS statistic; any failure inside the
`try` skips the candidate (`none`). -/
def tryCandidate (fitO : String → List ℚ → Option (List ℝ))
    (ksO : String → List ℚ → List ℝ → Option ℚ) (data : List ℚ)
    (nm : String) : Option (List ℝ × ℚ) :=
  let series := if nm = "beta" then rescale01 data else data
  match fitO nm series with
  | none => none
  | some p =>
    match ksO nm series p with
    | none => none
    | some ks => some (p, ks)

/-- `ks_stat < best_ks_stat` where `best_ks_stat` starts at
`float('inf')` (`none`). -/
def ksBeats (ks : ℚ) : Option ℚ → Bool
  | none => true
  | some b => decide (ks < b)

/-- One iteration of the candidate loop acting on the
`(best_fit, best_ks_stat)` state (lines 83-85). -/
def autoStep (fitO : String → List ℚ → Option (List ℝ))
    (ksO : String → List ℚ → List ℝ → Option ℚ) (data : List ℚ)
    (s : Option (String × List ℝ) × Option ℚ) (nm : String) :
    Option (String × List ℝ) × Option ℚ :=
  match tryCandidate fitO ksO data nm with
  | none => s
  | some (p, ks) => if ksBeats ks s.2 then (some (nm, p), some ks) else s

/-- Line 62: `distributions = ['normal', 'lognormal', 'gamma', 'beta']`. -/
def autoCandidates : List String := ["normal", "lognormal", "gamma", "beta"]

/-- `PerformanceDistribution.fit_distribution`.  In the `'auto'` branch the
loop selects the candidate with the strictly smallest KS statistic (first
candidate wins ties); if no candidate succeeded, `stats.norm.fit` is used
(empirical mean/std when it succeeds, and the outer `except` builds the same
empirical pair if it raises).  The dead conditional
`best_ks if distribution_type == 'auto' else None` is kept as in the source:
`distribution_type` has been reassigned to the winning family by then, so
the stored KS statistic is always `None`. -/
noncomputable def fitDistribution (data : List ℚ) (dtype : String)
    (fitO : String → List ℚ → Option (List ℝ))
    (ksO : String → List ℚ → List ℝ → Option ℚ) : FitResult :=
  if dtype = "auto" then
    let res := autoCandidates.foldl (autoStep fitO ksO data) (none, none)
    match res.1 with
    | some (nm, p) => mkFitResult data nm p (if nm = "auto" then res.2 else none)
    | none =>
      match fitO "normal" data with
      | some p => mkFitResult data "normal" p none
      | none => mkFitResult data "normal" (empiricalNormalParams data) none
  else if dtype = "normal" then
    match fitO "normal" data with
    | some p => mkFitResult data "normal" p none
    | none => mkFitResult data "normal" (empiricalNormalParams data) none
  else if dtype = "lognormal" then
    match fitO "lognormal" data with
    | some p => mkFitResult data "lognormal" p none
    | none => mkFitResult data "normal" (empiricalNormalParams data) none
  else if dtype = "gamma" then
    match fitO "gamma" data with
    | some p => mkFitResult data "gamma" p none
    | none => mkFitResult data "normal" (empiricalNormalParams data) none
  else
    match fitO "normal" data with
    | some p => mkFitResult data dtype p none
    | none => mkFitResult data "normal" (empiricalNormalParams data) none

/-! Helper lemmas for positional access via `getD` and for the candidate
loop invariant. -/

lemma getD_append_left (l ll : List String) (k : ℕ) (h : k < l.length) (d : String) :
    (l ++ ll).getD k d = l.getD k d := by
  simp [List.getD_eq_getElem?_getD, List.getElem?_append_left h]

lemma getD_concat_length (l : List String) (a d : String) :
    (l ++ [a]).getD l.length d = a := by
  simp [List.getD_eq_getElem?_getD, List.getElem?_concat_length]

lemma getD_mem_of_lt (l : List String) (k : ℕ) (h : k < l.length) (d : String) :
    l.getD k d ∈ l := by
  simp [List.getD_eq_getElem?_getD, List.getElem?_eq_getElem h]

/-- Invariant of the candidate loop: the `(best_fit, best_ks_stat)` state is
either still the initial `(None, inf)` with every processed candidate having
failed, or it holds the first candidate among the processed ones attaining
the strictly smallest KS statistic. -/
def AutoInv (t : String → Option (List ℝ × ℚ)) (processed : List String)
    (s : Option (String × List ℝ) × Option ℚ) : Prop :=
  (s = (none, none) ∧ ∀ nm ∈ processed, t nm = none) ∨
  (∃ k, k < processed.length ∧ ∃ p ks,
    s = (some (processed.getD k "", p), some ks) ∧
    t (processed.getD k "") = some (p, ks) ∧
    ∀ j, j < processed.length → ∀ q ksj,
      t (processed.getD j "") = some (q, ksj) → ks ≤ ksj ∧ (j < k → ks < ksj))

lemma autoInv_step (fitO : String → List ℚ → Option (List ℝ))
    (ksO : String → List ℚ → List ℝ → Option ℚ) (data : List ℚ)
    (processed : List String) (s : Option (String × List ℝ) × Option ℚ)
    (nm : String)
    (h : AutoInv (tryCandidate fitO ksO data) processed s) :
    AutoInv (tryCandidate fitO ksO data) (processed ++ [nm])
      (autoStep fitO ksO data s nm) := by
  rcases h with ⟨hs, hall⟩ | ⟨k, hk, p, ks, hs, ht, hmin⟩
  · unfold autoStep
    rcases htn : tryCandidate fitO ksO data nm with _ | ⟨q, ksq⟩
    · refine Or.inl ⟨hs, ?_⟩
      intro x hx
      rcases List.mem_append.mp hx with hx1 | hx2
      · exact hall x hx1
      · rw [List.mem_singleton.mp hx2]
        exact htn
    · subst hs
      simp only [ksBeats, if_pos]
      refine Or.inr ⟨processed.length, ?_, q, ksq, ?_, ?_, ?_⟩
      · simp
      · rw [getD_concat_length]
      · rw [getD_concat_length]
        exact htn
      · intro j hj qj ksj htj
        have hjl : j ≤ processed.length := by
          simp only [List.length_append, List.length_singleton] at hj
          omega
        rcases lt_or_eq_of_le hjl with hjlt | hjeq
        · rw [getD_append_left _ _ _ hjlt] at htj
          exact absurd htj (by rw [hall _ (getD_mem_of_lt _ _ hjlt _)]; simp)
        · subst hjeq
          rw [getD_concat_length] at htj
          rw [htn] at htj
          simp only [Option.some.injEq, Prod.mk.injEq] at htj
          obtain ⟨rfl, rfl⟩ := htj
          exact ⟨le_refl _, fun hjk => absurd hjk (lt_irrefl _)⟩
  · unfold autoStep
    rcases htn : tryCandidate fitO ksO data nm with _ | ⟨q, ksq⟩
    · refine Or.inr ⟨k, ?_, p, ks, ?_, ?_, ?_⟩
      · simp only [List.length_append, List.length_singleton]; omega
      · rw [getD_append_left _ _ _ hk]; exact hs
      · rw [getD_append_left _ _ _ hk]; exact ht
      · intro j hj qj ksj htj
        have hjl : j ≤ processed.length := by
          simp only [List.length_append, List.length_singleton] at hj
          omega
        rcases lt_or_eq_of_le hjl with hjlt | hjeq
        · rw [getD_append_left _ _ _ hjlt] at htj
          exact hmin j hjlt qj ksj htj
        · subst hjeq
          rw [getD_concat_length, htn] at htj
          cases htj
    · subst hs
      simp only [ksBeats]
      by_cases hlt : ksq < ks
      · rw [if_pos (by simpa using hlt)]
        refine Or.inr ⟨processed.length, by simp, q, ksq, ?_, ?_, ?_⟩
        · rw [getD_concat_length]
        · rw [getD_concat_length]; exact htn
        · intro j hj qj ksj htj
          have hjl : j ≤ processed.length := by
            simp only [List.length_append, List.length_singleton] at hj
            omega
          rcases lt_or_eq_of_le hjl with hjlt | hjeq
          · rw [getD_append_left _ _ _ hjlt] at htj
            have := (hmin j hjlt qj ksj htj).1
            exact ⟨le_of_lt (lt_of_lt_of_le hlt this),
              fun _ => lt_of_lt_of_le hlt this⟩
          · subst hjeq
            rw [getD_concat_length, htn] at htj
            simp only [Option.some.injEq, Prod.mk.injEq] at htj
            obtain ⟨rfl, rfl⟩ := htj
            exact ⟨le_refl _, fun hjk => absurd hjk (lt_irrefl _)⟩
      · rw [if_neg (by simpa using hlt)]
        refine Or.inr ⟨k, ?_, p, ks, ?_, ?_, ?_⟩
        · simp only [List.length_append, List.length_singleton]; omega
        · rw [getD_append_left _ _ _ hk]
        · rw [getD_append_left _ _ _ hk]; exact ht
        · intro j hj qj ksj htj
          have hjl : j ≤ processed.length := by
            simp only [List.length_append, List.length_singleton] at hj
            omega
          rcases lt_or_eq_of_le hjl with hjlt | hjeq
          · rw [getD_append_left _ _ _ hjlt] at htj
            exact hmin j hjlt qj ksj htj
          · subst hjeq
            rw [getD_concat_length, htn] at htj
            simp only [Option.some.injEq, Prod.mk.injEq] at htj
            obtain ⟨rfl, rfl⟩ := htj
            exact ⟨le_of_not_lt hlt, fun hjk => absurd hjk (by omega)⟩

lemma autoInv_foldl (fitO : String → List ℚ → Option (List ℝ))
    (ksO : String → List ℚ → List ℝ → Option ℚ) (data : List ℚ) :
    ∀ (names processed : List String) (s : Option (String × List ℝ) × Option ℚ),
      AutoInv (tryCandidate fitO ksO data) processed s →
      AutoInv (tryCandidate fitO ksO data) (processed ++ names)
        (names.foldl (autoStep fitO ksO data) s) := by
  intro names
  induction names with
  | nil => intro processed s h; simpa using h
  | cons nm rest ih =>
    intro processed s h
    have h1 := autoInv_step fitO ksO data processed s nm h
    have h2 := ih (processed ++ [nm]) _ h1
    simpa [List.append_assoc] using h2

lemma foldl_autoStep_all_none (fitO : String → List ℚ → Option (List ℝ))
    (ksO : String → List ℚ → List ℝ → Option ℚ) (data : List ℚ) :
    ∀ (names : List String) (s : Option (String × List ℝ) × Option ℚ),
      (∀ nm ∈ names, tryCandidate fitO ksO data nm = none) →
      names.foldl (autoStep fitO ksO data) s = s := by
  intro names
  induction names with
  | nil => intro s _; rfl
  | cons nm rest ih =>
    intro s hall
    rw [List.foldl_cons]
    rw [show autoStep fitO ksO data s nm = s from by
      unfold autoStep; rw [hall nm (List.mem_cons_self _ _)]]
    exact ih s fun x hx => hall x (List.mem_cons_of_mem _ hx)

/-- C7: in `'auto'` mode exactly the candidates normal, lognormal, gamma,
beta are tried (in that order; beta on the min/max-rescaled series inside
`tryCandidate`); if any candidate succeeds, the returned family is the first
candidate attaining the strictly smallest KS statistic among the succeeding
candidates; failed candidates are skipped; if every candidate fails, the
result is the normal family with the empirical mean/std parameters
(`hnorm` states that `stats.norm.fit` computes exactly the empirical
mean/std pair when it succeeds, which is its MLE). -/
theorem fitDistribution_auto_selects_min_ks (data : List ℚ)
    (fitO : String → List ℚ → Option (List ℝ))
    (ksO : String → List ℚ → List ℝ → Option ℚ)
    (hnorm : fitO "normal" data = none ∨
      fitO "normal" data = some (empiricalNormalParams data)) :
    ((∀ nm ∈ autoCandidates, tryCandidate fitO ksO data nm = none) →
      (fitDistribution data "auto" fitO ksO).distribution_type = "normal" ∧
      (fitDistribution data "auto" fitO ksO).parameters =
        empiricalNormalParams data) ∧
    (∀ nm0 ∈ autoCandidates, tryCandidate fitO ksO data nm0 ≠ none →
      ∃ k, k < autoCandidates.length ∧ ∃ p ks,
        tryCandidate fitO ksO data (autoCandidates.getD k "") = some (p, ks) ∧
        (fitDistribution data "auto" fitO ksO).distribution_type =
          autoCandidates.getD k "" ∧
        (fitDistribution data "auto" fitO ksO).parameters = p ∧
        ∀ j, j < autoCandidates.length → ∀ q ksj,
          tryCandidate fitO ksO data (autoCandidates.getD j "") = some (q, ksj) →
          ks ≤ ksj ∧ (j < k → ks < ksj)) := by
  have hinv := autoInv_foldl fitO ksO data autoCandidates [] (none, none)
    (Or.inl ⟨rfl, by simp⟩)
  rw [List.nil_append] at hinv
  constructor
  · intro hall
    have hres := foldl_autoStep_all_none fitO ksO data autoCandidates (none, none) hall
    rw [show fitDistribution data "auto" fitO ksO =
        mkFitResult data "normal"
          (match fitO "normal" data with
           | some p => p
           | none => empiricalNormalParams data) none from by
      unfold fitDistribution
      rw [if_pos rfl]
      simp only [hres]
      rcases hn : fitO "normal" data with _ | p <;> simp [hn]]
    rcases hn : fitO "normal" data with _ | p
    · simp [mkFitResult, hn]
    · rcases hnorm with hc | hc
      · rw [hn] at hc; cases hc
      · rw [hn] at hc
        obtain rfl : p = empiricalNormalParams data := by
          simpa using hc
        simp [mkFitResult, hn]
  · intro nm0 hmem hne
    rcases hinv with ⟨_, hall⟩ | ⟨k, hk, p, ks, hs, ht, hmin⟩
    · exact absurd (hall nm0 hmem) hne
    · refine ⟨k, hk, p, ks, ht, ?_, ?_, hmin⟩ <;>
      · unfold fitDistribution
        rw [if_pos rfl]
        simp only [hs]
        simp [mkFitResult]

/-- Concrete scipy oracle for the C7 witness: only the gamma fit succeeds. -/
def gammaOnlyFitOracle : String → List ℚ → Option (List ℝ) :=
  fun nm _ => if nm = "gamma" then some [1] else none

/-- Concrete KS oracle for the C7 witness: KS statistic 1 for gamma. -/
def gammaOnlyKsOracle : String → List ℚ → List ℝ → Option ℚ :=
  fun nm _ _ => if nm = "gamma" then some 1 else none

/-- Witness for C7: with oracles under which only the gamma candidate
succeeds, the auto fit selects gamma with its parameters. -/
theorem fitDistribution_auto_selects_min_ks_witness :
    ((gammaOnlyFitOracle "normal" [1, 2, 3] = none ∨
      gammaOnlyFitOracle "normal" [1, 2, 3] =
        some (empiricalNormalParams [1, 2, 3])) ∧
     "gamma" ∈ autoCandidates ∧
     tryCandidate gammaOnlyFitOracle gammaOnlyKsOracle [1, 2, 3] "gamma" ≠ none) ∧
    (∃ k, k < autoCandidates.length ∧ ∃ p ks,
      tryCandidate gammaOnlyFitOracle gammaOnlyKsOracle [1, 2, 3]
        (autoCandidates.getD k "") = some (p, ks) ∧
      (fitDistribution [1, 2, 3] "auto" gammaOnlyFitOracle
        gammaOnlyKsOracle).distribution_type = autoCandidates.getD k "" ∧
      (fitDistribution [1, 2, 3] "auto" gammaOnlyFitOracle
        gammaOnlyKsOracle).parameters = p ∧
      ∀ j, j < autoCandidates.length → ∀ q ksj,
        tryCandidate gammaOnlyFitOracle gammaOnlyKsOracle [1, 2, 3]
          (autoCandidates.getD j "") = some (q, ksj) →
        ks ≤ ksj ∧ (j < k → ks < ksj)) :=
  ⟨⟨Or.inl (by simp [gammaOnlyFitOracle]), by simp [autoCandidates],
    by simp [tryCandidate, gammaOnlyFitOracle, gammaOnlyKsOracle]⟩,
   (fitDistribution_auto_selects_min_ks [1, 2, 3] gammaOnlyFitOracle
      gammaOnlyKsOracle (Or.inl (by simp [gammaOnlyFitOracle]))).2 "gamma"
      (by simp [autoCandidates])
      (by simp [tryCandidate, gammaOnlyFitOracle, gammaOnlyKsOracle])⟩

/-- C8: the fitter has no degeneracy check and no
`DegenerateDistributionError` exists anywhere in the code.  On the constant
series `[5, 5, 5]` (zero variance, one distinct value) `fit_distribution`
returns normally; with every scipy call failing it produces the empirical
normal fallback `('normal', (5, 0))` instead of raising. -/
theorem fitDistribution_degenerate_series_returns_result :
    npVar [5, 5, 5] = 0 ∧
    fitDistribution [5, 5, 5] "auto" (fun _ _ => none) (fun _ _ _ => none) =
      { distribution_type := "normal", parameters := [(5 : ℝ), 0], mean := 5,
        std := 0, ks_statistic := none } := by
  have hvar : npVar [5, 5, 5] = 0 := by
    simp [npVar, npMean]
    norm_num
  refine ⟨hvar, ?_⟩
  have hfold := foldl_autoStep_all_none (fun _ _ => none) (fun _ _ _ => none)
    [5, 5, 5] autoCandidates (none, none) (by intro nm _; simp [tryCandidate])
  unfold fitDistribution
  rw [if_pos rfl]
  simp only [hfold]
  simp [mkFitResult, empiricalNormalParams, FitResult.mk.injEq, hvar,
    Real.sqrt_zero]
  norm_num [npMean]

/-- C8 (amended): a zero-variance series is not rejected — fitting proceeds
and `fit_distribution` always returns a `FitResult` (never an error); when
every candidate fails on such a series, the returned result is the normal
family with the empirical fallback parameters (sample mean, standard
deviation 0). -/
theorem fitDistribution_zero_variance_returns_fallback (data : List ℚ)
    (fitO : String → List ℚ → Option (List ℝ))
    (ksO : String → List ℚ → List ℝ → Option ℚ) (hvar : npVar data = 0)
    (hall : ∀ nm ∈ autoCandidates, tryCandidate fitO ksO data nm = none)
    (hnfit : fitO "normal" data = none) :
    fitDistribution data "auto" fitO ksO =
      { distribution_type := "normal",
        parameters := [((npMean data : ℚ) : ℝ), 0], mean := npMean data,
        std := 0, ks_statistic := none } := by
  have hfold := foldl_autoStep_all_none fitO ksO data autoCandidates
    (none, none) hall
  unfold fitDistribution
  rw [if_pos rfl]
  simp only [hfold, hnfit]
  simp [mkFitResult, empiricalNormalParams, hvar, Real.sqrt_zero]

/-- Witness for C8 (amended) at the constant series `[5, 5, 5]` with
all-failing scipy oracles. -/
theorem fitDistribution_zero_variance_returns_fallback_witness :
    npVar [5, 5, 5] = 0 ∧
    (∀ nm ∈ autoCandidates,
      tryCandidate (fun _ _ => none) (fun _ _ _ => none) [5, 5, 5] nm = none) ∧
    fitDistribution [5, 5, 5] "auto" (fun _ _ => none) (fun _ _ _ => none) =
      { distribution_type := "normal",
        parameters := [((npMean [5, 5, 5] : ℚ) : ℝ), 0], mean := npMean [5, 5, 5],
        std := 0, ks_statistic := none } :=
  ⟨by simp [npVar, npMean]; norm_num,
   by intro nm _; simp [tryCandidate],
   fitDistribution_zero_variance_returns_fallback [5, 5, 5] _ _
     (by simp [npVar, npMean]; norm_num) (by intro nm _; simp [tryCandidate]) rfl⟩

/-! ## Correlation matrix (`CorrelationMatrix.calculate_correlations`,
lines 148-169)

`pivot_table(index='game_id', columns='player_id', values='fantasy_points',
fill_value=0)` aggregates duplicate observations by mean and fills every
missing player/game combination with `0`; `DataFrame.corr()` then computes
pairwise Pearson correlations over all game rows.  A table of observations
is a list of `(player_id, game_id, fantasy_points)` rows. -/

/-- The distinct game ids of the table (the pivot index).  The order is
irrelevant to the correlation: both columns are read over the same list. -/
def gamesOf (t : List (ℤ × ℤ × ℚ)) : List ℤ := (t.map (fun r => r.2.1)).dedup

/-- The observed fantasy-point values for one player/game combination. -/
def cellValues (t : List (ℤ × ℤ × ℚ)) (p g : ℤ) : List ℚ :=
  (t.filter (fun r => r.1 == p && r.2.1 == g)).map (fun r => r.2.2)

/-- One pivot cell: the mean of the observations, or the `fill_value` `0`
when the combination is missing. -/
def pivotCell (t : List (ℤ × ℤ × ℚ)) (p g : ℤ) : ℚ :=
  let vs := cellValues t p g
  if vs.isEmpty then 0 else vs.sum / vs.length

/-- The pivoted column of one player over all games of the table. -/
def pivotColumn (t : List (ℤ × ℤ × ℚ)) (p : ℤ) : List ℚ :=
  (gamesOf t).map (pivotCell t p)

/-- Pearson correlation of two equally long series,
`Σ(x-x̄)(y-ȳ) / (√Σ(x-x̄)² · √Σ(y-ȳ)²)`. -/
noncomputable def pearson (xs ys : List ℚ) : ℝ :=
  let sxy := ((xs.zip ys).map (fun v => (v.1 - npMean xs) * (v.2 - npMean ys))).sum
  let sxx := (xs.map (fun x => (x - npMean xs) ^ 2)).sum
  let syy := (ys.map (fun y => (y - npMean ys) ^ 2)).sum
  ((sxy : ℚ) : ℝ) / (Real.sqrt ((sxx : ℚ) : ℝ) * Real.sqrt ((syy : ℚ) : ℝ))

/-- `calculate_correlations`, as the entry of the returned matrix for a pair
of players: Pearson correlation of the two zero-filled pivot columns. -/
noncomputable def calculateCorrelations (t : List (ℤ × ℤ × ℚ)) (p q : ℤ) : ℝ :=
  pearson (pivotColumn t p) (pivotColumn t q)

/-- Modelled from the spec: the games for which both players have at least
one observation — the claim's exclusion semantics ("missing player/game
combinations treated as excluded from pairwise correlation"). -/
def sharedGames (t : List (ℤ × ℤ × ℚ)) (p q : ℤ) : List ℤ :=
  (gamesOf t).filter
    (fun g => !(cellValues t p g).isEmpty && !(cellValues t q g).isEmpty)

/-- Modelled from the spec: pairwise Pearson correlation restricted to the
shared games, with missing combinations excluded rather than zero-filled. -/
noncomputable def specCorrelationExcluding (t : List (ℤ × ℤ × ℚ)) (p q : ℤ) : ℝ :=
  pearson ((sharedGames t p q).map (pivotCell t p))
    ((sharedGames t p q).map (pivotCell t q))

lemma pivotCell_of_single (t : List (ℤ × ℤ × ℚ)) (p g : ℤ) (x : ℚ)
    (h : cellValues t p g = [x]) : pivotCell t p g = x := by
  unfold pivotCell
  rw [h]
  simp

lemma pivotCell_of_empty (t : List (ℤ × ℤ × ℚ)) (p g : ℤ)
    (h : cellValues t p g = []) : pivotCell t p g = 0 := by
  unfold pivotCell
  rw [h]
  simp

/-- The concrete observation table for C6: player 1 played games 1, 2, 3
with 1, 2, 3 points; player 2 played only games 1 and 2, with 1 and 2
points (the combination (player 2, game 3) is missing). -/
def corrTable : List (ℤ × ℤ × ℚ) :=
  [(1, 1, 1), (1, 2, 2), (1, 3, 3), (2, 1, 1), (2, 2, 2)]

/-- C6: the pivot fills the missing combination (player 2, game 3) with the
value `0` and includes it in the pairwise Pearson correlation: the computed
correlation is `-1/2`, whereas the claim's exclusion semantics (correlating
only over shared games) gives `+1` — the missing combination is substituted
by zero, not excluded. -/
theorem calculateCorrelations_fills_missing_with_zero :
    cellValues corrTable 2 3 = [] ∧
    pivotCell corrTable 2 3 = 0 ∧
    calculateCorrelations corrTable 1 2 = -(1 / 2) ∧
    specCorrelationExcluding corrTable 1 2 = 1 ∧
    (-(1 / 2) : ℝ) ≠ 1 := by
  have e23 : cellValues corrTable 2 3 = [] := by decide
  have hg : gamesOf corrTable = [3, 1, 2] := by decide
  have hcol1 : pivotColumn corrTable 1 = [3, 1, 2] := by
    rw [pivotColumn, hg]
    simp only [List.map_cons, List.map_nil]
    rw [pivotCell_of_single _ _ _ _ (by decide : cellValues corrTable 1 3 = [3]),
      pivotCell_of_single _ _ _ _ (by decide : cellValues corrTable 1 1 = [1]),
      pivotCell_of_single _ _ _ _ (by decide : cellValues corrTable 1 2 = [2])]
  have hcol2 : pivotColumn corrTable 2 = [0, 1, 2] := by
    rw [pivotColumn, hg]
    simp only [List.map_cons, List.map_nil]
    rw [pivotCell_of_empty _ _ _ e23,
      pivotCell_of_single _ _ _ _ (by decide : cellValues corrTable 2 1 = [1]),
      pivotCell_of_single _ _ _ _ (by decide : cellValues corrTable 2 2 = [2])]
  have hshared : sharedGames corrTable 1 2 = [1, 2] := by decide
  have hsharedcol1 : (sharedGames corrTable 1 2).map (pivotCell corrTable 1) = [1, 2] := by
    rw [hshared]
    simp only [List.map_cons, List.map_nil]
    rw [pivotCell_of_single _ _ _ _ (by decide : cellValues corrTable 1 1 = [1]),
      pivotCell_of_single _ _ _ _ (by decide : cellValues corrTable 1 2 = [2])]
  have hsharedcol2 : (sharedGames corrTable 1 2).map (pivotCell corrTable 2) = [1, 2] := by
    rw [hshared]
    simp only [List.map_cons, List.map_nil]
    rw [pivotCell_of_single _ _ _ _ (by decide : cellValues corrTable 2 1 = [1]),
      pivotCell_of_single _ _ _ _ (by decide : cellValues corrTable 2 2 = [2])]
  refine ⟨e23, pivotCell_of_empty _ _ _ e23, ?_, ?_, by norm_num⟩
  · rw [calculateCorrelations, hcol1, hcol2]
    unfold pearson npMean
    norm_num
  · rw [specCorrelationExcluding, hsharedcol1, hsharedcol2]
    have h2 : Real.sqrt 2 * Real.sqrt 2 = 2 := Real.mul_self_sqrt (by norm_num)
    unfold pearson npMean
    norm_num
    rw [← mul_inv, h2]
    norm_num

/-- C6 (amended): a player/game combination absent from the table is
substituted by the value `0` (`fill_value=0`) and included in the pairwise
correlation: the pivot cell is `0` and every game of the table contributes a
row to each player's column (nothing is excluded). -/
theorem pivot_missing_combination_is_zero (t : List (ℤ × ℤ × ℚ)) (p g : ℤ)
    (h : cellValues t p g = []) :
    pivotCell t p g = 0 ∧
    ∀ q : ℤ, (pivotColumn t q).length = (gamesOf t).length := by
  refine ⟨pivotCell_of_empty _ _ _ h, fun q => ?_⟩
  simp [pivotColumn]

/-- Witness for C6 (amended) at the missing combination (player 2, game 3)
of the concrete table. -/
theorem pivot_missing_combination_is_zero_witness :
    cellValues corrTable 2 3 = [] ∧
    (pivotCell corrTable 2 3 = 0 ∧
     ∀ q : ℤ, (pivotColumn corrTable q).length = (gamesOf corrTable).length) :=
  ⟨by decide, pivot_missing_combination_is_zero corrTable 2 3 (by decide)⟩

/-! ## Positive-definiteness repair
(`CorrelationMatrix._ensure_positive_definite`, lines 171-183)

The code computes the smallest (real part of an) eigenvalue; if it is below
`1e-8` it adds `np.eye * (1e-8 - min_eigenval)` — i.e. `(1e-8 - min)` on
every diagonal entry — and then calls `np.linalg.cholesky`, falling back to
the identity matrix inside `except` if the decomposition raises.  The claim
concerns symmetric matrices, so the embedding takes a hermitian real matrix;
`np.linalg.cholesky` is an oracle `chol` returning `none` exactly when it
raises `LinAlgError`, which for a hermitian input means "not positive
definite". -/

/-- The repair epsilon `1e-8` (exact, in the real model). -/
noncomputable def repairEps : ℝ := 1 / 10 ^ 8

/-- The spec's eigenvalue tolerance `-1e-10`. -/
noncomputable def negTol : ℝ := -(1 / 10 ^ 10)

/-- `np.min(np.real(np.linalg.eigvals(M)))` for a symmetric real matrix:
the smallest eigenvalue. -/
noncomputable def minEig {n : Type*} [Fintype n] [DecidableEq n] [Nonempty n]
    {A : Matrix n n ℝ} (hA : A.IsHermitian) : ℝ :=
  Finset.univ.inf' Finset.univ_nonempty hA.eigenvalues

open Classical in
/-- The repaired correlation matrix of `_ensure_positive_definite`. -/
noncomputable def ensurePositiveDefinite {n : Type*} [Fintype n] [DecidableEq n]
    [Nonempty n] {A : Matrix n n ℝ} (hA : A.IsHermitian) : Matrix n n ℝ :=
  if minEig hA < repairEps then
    A + Matrix.diagonal (fun _ => repairEps - minEig hA)
  else A

/-- The `cholesky_matrix` field after `_ensure_positive_definite`: the
Cholesky factor of the repaired matrix, or — in the `except` branch, when
the decomposition raises — the identity `np.eye(...)`. -/
noncomputable def ensurePositiveDefiniteChol {n : Type*} [Fintype n] [DecidableEq n]
    [Nonempty n] (chol : Matrix n n ℝ → Option (Matrix n n ℝ))
    {A : Matrix n n ℝ} (hA : A.IsHermitian) : Matrix n n ℝ :=
  match chol (ensurePositiveDefinite hA) with
  | some L => L
  | none => 1

lemma minEig_le {n : Type*} [Fintype n] [DecidableEq n] [Nonempty n]
    {A : Matrix n n ℝ} (hA : A.IsHermitian) (i : n) :
    minEig hA ≤ hA.eigenvalues i :=
  Finset.inf'_le _ (Finset.mem_univ i)

lemma add_const_diagonal_spectral {n : Type*} [Fintype n] [DecidableEq n]
    {A : Matrix n n ℝ} (hA : A.IsHermitian) (c : ℝ) :
    A + Matrix.diagonal (fun _ => c) =
      (hA.eigenvectorUnitary : Matrix n n ℝ) *
        Matrix.diagonal (fun i => hA.eigenvalues i + c) *
        (star (hA.eigenvectorUnitary : Matrix n n ℝ)) := by
  have hU : (hA.eigenvectorUnitary : Matrix n n ℝ) *
      star (hA.eigenvectorUnitary : Matrix n n ℝ) = 1 :=
    Matrix.mem_unitaryGroup_iff.mp hA.eigenvectorUnitary.2
  have hdiag : Matrix.diagonal (fun _ : n => c) = c • (1 : Matrix n n ℝ) := by
    ext i j
    by_cases h : i = j <;> simp [Matrix.diagonal_apply, Matrix.one_apply, h]
  have hD : Matrix.diagonal (RCLike.ofReal ∘ hA.eigenvalues) =
      Matrix.diagonal hA.eigenvalues := by
    congr 1
  calc A + Matrix.diagonal (fun _ : n => c)
      = (hA.eigenvectorUnitary : Matrix n n ℝ) *
          Matrix.diagonal hA.eigenvalues *
          (star (hA.eigenvectorUnitary : Matrix n n ℝ)) + c • (1 : Matrix n n ℝ) := by
        conv_lhs => rw [hA.spectral_theorem]
        rw [hD, hdiag]
    _ = (hA.eigenvectorUnitary : Matrix n n ℝ) *
          (Matrix.diagonal hA.eigenvalues + c • (1 : Matrix n n ℝ)) *
          (star (hA.eigenvectorUnitary : Matrix n n ℝ)) := by
        rw [Matrix.mul_add, Matrix.add_mul]
        congr 1
        rw [Matrix.mul_smul, Matrix.mul_one, Matrix.smul_mul, hU]
    _ = (hA.eigenvectorUnitary : Matrix n n ℝ) *
          Matrix.diagonal (fun i => hA.eigenvalues i + c) *
          (star (hA.eigenvectorUnitary : Matrix n n ℝ)) := by
        rw [← hdiag, Matrix.diagonal_add]

lemma posSemidef_add_const_diagonal {n : Type*} [Fintype n] [DecidableEq n]
    {A : Matrix n n ℝ} (hA : A.IsHermitian) (c : ℝ)
    (h : ∀ i, 0 ≤ hA.eigenvalues i + c) :
    (A + Matrix.diagonal fun _ => c).PosSemidef := by
  rw [add_const_diagonal_spectral hA c]
  have hd : (Matrix.diagonal fun i => hA.eigenvalues i + c).PosSemidef :=
    Matrix.PosSemidef.diagonal h
  have hres := hd.mul_mul_conjTranspose_same (hA.eigenvectorUnitary : Matrix n n ℝ)
  simpa [Matrix.star_eq_conjTranspose] using hres

lemma posDef_add_const_diagonal {n : Type*} [Fintype n] [DecidableEq n]
    {A : Matrix n n ℝ} (hA : A.IsHermitian) (c eps : ℝ)
    (heps : 0 < eps) (h : ∀ i, eps ≤ hA.eigenvalues i + c) :
    (A + Matrix.diagonal fun _ => c).PosDef := by
  have hsplit : A + Matrix.diagonal (fun _ : n => c) =
      (A + Matrix.diagonal fun _ : n => (c - eps)) +
        Matrix.diagonal (fun _ : n => eps) := by
    rw [add_assoc, Matrix.diagonal_add]
    congr 1
    funext i
    ring_nf
  rw [hsplit]
  exact Matrix.PosDef.posSemidef_add
    (posSemidef_add_const_diagonal hA (c - eps) (fun i => by linarith [h i]))
    (Matrix.PosDef.diagonal fun _ => heps)

lemma ensurePositiveDefinite_posDef {n : Type*} [Fintype n] [DecidableEq n]
    [Nonempty n] {A : Matrix n n ℝ} (hA : A.IsHermitian) :
    (ensurePositiveDefinite hA).PosDef := by
  unfold ensurePositiveDefinite
  by_cases hlt : minEig hA < repairEps
  · rw [if_pos hlt]
    exact posDef_add_const_diagonal hA _ repairEps (by norm_num [repairEps])
      (fun i => by have := minEig_le hA i; linarith)
  · rw [if_neg hlt]
    have hA0 : A = A + Matrix.diagonal (fun _ : n => (0 : ℝ)) := by simp
    rw [hA0]
    push_neg at hlt
    exact posDef_add_const_diagonal hA 0 repairEps (by norm_num [repairEps])
      (fun i => by have := minEig_le hA i; linarith)

/-- C5: for every symmetric correlation matrix with unit diagonal, the
repair adds `(1e-8 - min_eigenvalue)` to every diagonal entry exactly when
the minimum eigenvalue is below `1e-8` (off-diagonal entries untouched); the
repaired matrix is positive semi-definite with all eigenvalues `≥ -1e-10`;
it is in fact positive definite, so `np.linalg.cholesky` (modelled by the
oracle `chol` failing exactly on non-positive-definite input) succeeds; and
should the decomposition nevertheless fail, the `except` guard falls back to
the identity matrix instead of raising. -/
theorem correlation_repair_psd_and_cholesky {n : Type*} [Fintype n]
    [DecidableEq n] [Nonempty n] {A : Matrix n n ℝ} (hA : A.IsHermitian)
    (_hdiag : ∀ i, A i i = 1)
    (chol : Matrix n n ℝ → Option (Matrix n n ℝ))
    (hchol : ∀ M : Matrix n n ℝ, chol M = none ↔ ¬ M.PosDef) :
    (∀ i, (ensurePositiveDefinite hA) i i =
      A i i + (if minEig hA < repairEps then repairEps - minEig hA else 0)) ∧
    (∀ i j, i ≠ j → (ensurePositiveDefinite hA) i j = A i j) ∧
    (ensurePositiveDefinite hA).PosSemidef ∧
    (∀ (h2 : (ensurePositiveDefinite hA).IsHermitian) i,
      negTol ≤ h2.eigenvalues i) ∧
    (ensurePositiveDefinite hA).PosDef ∧
    (∃ L, chol (ensurePositiveDefinite hA) = some L ∧
      ensurePositiveDefiniteChol chol hA = L) ∧
    (∀ chol2 : Matrix n n ℝ → Option (Matrix n n ℝ),
      chol2 (ensurePositiveDefinite hA) = none →
      ensurePositiveDefiniteChol chol2 hA = 1) := by
  have hPD := ensurePositiveDefinite_posDef hA
  have hPSD := hPD.posSemidef
  refine ⟨?_, ?_, hPSD, ?_, hPD, ?_, ?_⟩
  · intro i
    unfold ensurePositiveDefinite
    by_cases hlt : minEig hA < repairEps
    · rw [if_pos hlt, if_pos hlt]
      simp [Matrix.add_apply, Matrix.diagonal_apply_eq]
    · rw [if_neg hlt, if_neg hlt, add_zero]
  · intro i j hij
    unfold ensurePositiveDefinite
    by_cases hlt : minEig hA < repairEps
    · rw [if_pos hlt]
      simp [Matrix.add_apply, Matrix.diagonal_apply_ne _ hij]
    · rw [if_neg hlt]
  · intro h2 i
    have h0 := hPSD.eigenvalues_nonneg i
    have : negTol ≤ 0 := by norm_num [negTol]
    exact le_trans this h0
  · rcases hc : chol (ensurePositiveDefinite hA) with _ | L
    · exact absurd ((hchol _).mp hc) (not_not.mpr hPD)
    · refine ⟨L, rfl, ?_⟩
      unfold ensurePositiveDefiniteChol
      rw [hc]
  · intro chol2 h
    unfold ensurePositiveDefiniteChol
    rw [h]

open Classical in
/-- A faithful `np.linalg.cholesky` oracle for the C5 witness: succeeds
exactly on positive definite input. -/
noncomputable def specCholOracle :
    Matrix (Fin 2) (Fin 2) ℝ → Option (Matrix (Fin 2) (Fin 2) ℝ) :=
  fun M => if M.PosDef then some M else none

lemma idHermitian : (1 : Matrix (Fin 2) (Fin 2) ℝ).IsHermitian :=
  Matrix.isHermitian_one

lemma specCholOracle_faithful :
    ∀ M : Matrix (Fin 2) (Fin 2) ℝ, specCholOracle M = none ↔ ¬ M.PosDef := by
  intro M
  by_cases h : M.PosDef <;> simp [specCholOracle, h]

/-- Witness for C5 at the 2×2 identity matrix (symmetric, unit diagonal)
with the faithful Cholesky oracle. -/
theorem correlation_repair_psd_and_cholesky_witness :
    (∀ i : Fin 2, (1 : Matrix (Fin 2) (Fin 2) ℝ) i i = 1) ∧
    (∀ M : Matrix (Fin 2) (Fin 2) ℝ, specCholOracle M = none ↔ ¬ M.PosDef) ∧
    (ensurePositiveDefinite idHermitian).PosSemidef ∧
    (ensurePositiveDefinite idHermitian).PosDef ∧
    (∃ L, specCholOracle (ensurePositiveDefinite idHermitian) = some L ∧
      ensurePositiveDefiniteChol specCholOracle idHermitian = L) := by
  have h1 : ∀ i : Fin 2, (1 : Matrix (Fin 2) (Fin 2) ℝ) i i = 1 :=
    fun i => Matrix.one_apply_eq i
  have hmain := correlation_repair_psd_and_cholesky idHermitian h1 specCholOracle
    specCholOracle_faithful
  exact ⟨h1, specCholOracle_faithful, hmain.2.2.1, hmain.2.2.2.2.1,
    hmain.2.2.2.2.2.1⟩
